import Mathlib

/-!
Verification of the zwiebelproxy request/response transformation pipeline.

The Go sources are shallowly embedded: byte strings (`[]byte` / `string`)
become `Str := List Char`, header maps (`http.Header`) become association
lists, and the standard-library helpers used by the code
(`strings.ReplaceAll`, `strings.TrimSuffix`, `net.SplitHostPort`,
`net.JoinHostPort`, ...) are given executable Lean counterparts.
External collaborators (gzip/zlib/brotli codecs, the DNS resolver,
`netip.ParseAddr`) are passed in as function parameters, mirroring their
role as black boxes in the design.
-/

set_option autoImplicit false

namespace Zwiebel

/-- Byte strings of the Go code, modelled as lists of characters. -/
abbrev Str := List Char

/-- Model of `strings.HasPrefix` / `bytes.HasPrefix`. -/
def startsWith : Str → Str → Bool
  | [], _ => true
  | _ :: _, [] => false
  | p :: ps, c :: cs => p == c && startsWith ps cs

/-- Model of `strings.HasSuffix`: `suf` is a suffix of `s`. -/
def endsWith (suf s : Str) : Bool :=
  startsWith suf.reverse s.reverse

/-- Model of `strings.TrimSuffix`: remove `suf` from the end of `s` if present. -/
def trimSuffix (s suf : Str) : Str :=
  if endsWith suf s then s.take (s.length - suf.length) else s

/-- Model of `strings.Contains` / `bytes.Contains`: does `pat` occur in `s`? -/
def subOccurs (pat : Str) : Str → Bool
  | [] => pat.isEmpty
  | c :: cs => startsWith pat (c :: cs) || subOccurs pat cs

/-- One fuel-indexed step of `ReplaceAll`; fuel keeps the recursion structural
so that the kernel can evaluate it. -/
def replAllFuel (pat rep : Str) : Nat → Str → Str
  | 0, s => s
  | _ + 1, [] => []
  | fuel + 1, c :: cs =>
    if pat ≠ [] && startsWith pat (c :: cs) then
      rep ++ replAllFuel pat rep fuel ((c :: cs).drop pat.length)
    else
      c :: replAllFuel pat rep fuel cs

/-- Model of `strings.ReplaceAll` / `bytes.ReplaceAll` for non-empty patterns:
replace every non-overlapping occurrence of `pat` in `s` by `rep`,
scanning left to right. -/
def replAll (s pat rep : Str) : Str :=
  replAllFuel pat rep s.length s

/-- Model of `strings.Split(s, sep)[0]` for a one-character separator:
everything before the first occurrence of `sep`. -/
def takeUntilChar (sep : Char) : Str → Str
  | [] => []
  | c :: cs => if c == sep then [] else c :: takeUntilChar sep cs

/-- Model of `strings.Split` for a one-character separator. -/
def splitOnChar (sep : Char) : Str → List Str
  | [] => [[]]
  | c :: cs =>
    let rest := splitOnChar sep cs
    if c == sep then [] :: rest
    else match rest with
      | [] => [[c]]
      | r :: rs => (c :: r) :: rs

/-- ASCII lower-casing, modelling the ASCII case of the Go case folding. -/
def lowerAscii (c : Char) : Char :=
  if 'A' ≤ c && c ≤ 'Z' then Char.ofNat (c.toNat + 32) else c

/-- Model of `strings.EqualFold`, restricted to ASCII simple folding
(sufficient for the header tokens and MIME types the proxy compares). -/
def eqFold : Str → Str → Bool
  | [], [] => true
  | [], _ :: _ => false
  | _ :: _, [] => false
  | a :: as, b :: bs => lowerAscii a == lowerAscii b && eqFold as bs

/-- Model of `helper.SliceContains` (src/internal/helper/helper.go:44):
membership test using `strings.EqualFold`. -/
def sliceContains (slice : List Str) (value : Str) : Bool :=
  slice.any (fun item => eqFold item value)

/-- Go `unicode.IsSpace` on the characters `strings.TrimSpace` strips,
restricted to the Latin-1 white-space set. -/
def isSpaceChar (c : Char) : Bool :=
  c == ' ' || c == '\t' || c == '\n' || (c == Char.ofNat 11) ||
  (c == Char.ofNat 12) || (c == Char.ofNat 13) || (c == Char.ofNat 133) ||
  (c == Char.ofNat 160)

/-- Model of `strings.TrimSpace`. -/
def trimSpace (s : Str) : Str :=
  ((s.dropWhile isSpaceChar).reverse.dropWhile isSpaceChar).reverse

/-- Does the character `ch` occur in `s`? (Go `strings.IndexByte(s, ch) >= 0`.) -/
def hasChar (s : Str) (ch : Char) : Bool :=
  s.any (fun c => c == ch)

/-- Model of `net.JoinHostPort`: bracket the host when it contains a colon. -/
def joinHostPort (host port : Str) : Str :=
  if hasChar host ':' then '[' :: (host ++ ']' :: ':' :: port)
  else host ++ ':' :: port

/-- Index of the last occurrence of `ch` in `s`, or `none` (the `last`
helper of `net.SplitHostPort`). -/
def lastIndexOfChar : Str → Char → Option Nat
  | [], _ => none
  | c :: cs, ch =>
    match lastIndexOfChar cs ch with
    | some i => some (i + 1)
    | none => if c == ch then some 0 else none

/-- Model of `net.SplitHostPort`: split `host:port`, handling the
bracketed `[host]:port` form; `.error` covers all of the Go error cases
(missing port, too many colons, bracket errors). -/
def splitHostPort (s : Str) : Except Str (Str × Str) :=
  match lastIndexOfChar s ':' with
  | none => .error ("missing port in address").data
  | some i =>
    if s ≠ [] ∧ s.headI = '[' then
      match lastIndexOfChar s ']' with
      | none => .error ("missing right bracket in address").data
      | some e =>
        if e + 1 == s.length then .error ("missing port in address").data
        else if e + 1 == i then
          let host := (s.take e).drop 1
          let port := s.drop (i + 1)
          if hasChar port '[' || hasChar port ']' then .error ("unexpected bracket").data
          else .ok (host, port)
        else if s.getD (e + 1) ' ' == ':' then .error ("too many colons in address").data
        else .error ("missing port in address").data
    else
      let host := s.take i
      if hasChar host ':' then .error ("too many colons in address").data
      else
        let port := s.drop (i + 1)
        if hasChar port '[' || hasChar port ']' then .error ("unexpected bracket").data
        else .ok (host, port)

/-! ## Header maps

Go `http.Header` is a `map[string][]string`; we model it as an association
list from header name to value list.  Go map iteration order is
unspecified; the rewrite pass below iterates in list order, which is one
admissible order of the Go loop. -/

/-- A header map: association list from name to list of values. -/
abbrev Headers := List (Str × List Str)

/-- First binding of `k` in the header map (Go map indexing `h[k]`). -/
def headerFind (h : Headers) (k : Str) : Option (List Str) :=
  match h.find? (fun e => e.fst == k) with
  | some e => some e.snd
  | none => none

/-- Go map assignment `h[k] = v`: replace the binding of `k`, or append it. -/
def headerPut (h : Headers) (k : Str) (v : List Str) : Headers :=
  if (h.find? (fun e => e.fst == k)).isSome then
    h.map (fun e => if e.fst == k then (k, v) else e)
  else h ++ [(k, v)]

/-- Model of `http.Header.Del` for an already-canonical name. -/
def headerDel (h : Headers) (k : Str) : Headers :=
  h.filter (fun e => !(e.fst == k))

/-- Model of `http.Header.Get` for an already-canonical name:
first value of the binding, or the empty string. -/
def headerGetFirst (h : Headers) (k : Str) : Str :=
  match headerFind h k with
  | some (v :: _) => v
  | _ => []

/-! ## The Tor transformer (src/internal/tor/tor.go) -/

/-- The string constant `.onion`. -/
def onionStr : Str := (".onion").data

/-- The `Tor.domain` value made to start with a dot (tor.go:50-53, 106-109). -/
def normalizeDomain (domain : Str) : Str :=
  if startsWith ('.' :: []) domain then domain else '.' :: domain

/-- Name rewriting applied to each header name (tor.go:112):
`strings.ReplaceAll(k, ".onion", domain)`. -/
def rewriteName (domain k : Str) : Str :=
  replAll k onionStr domain

/-- Value rewriting applied to each header value (tor.go:115). -/
def rewriteValue (domain v : Str) : Str :=
  replAll v onionStr domain

/-- The header rewrite loop of `Tor.ModifyResponse` (tor.go:111-118):
for every entry `(k, v)` of the original map, assign under the rewritten
name the list of rewritten values.  The original entry is only replaced
when the rewritten name equals the original one. -/
def rewriteHeadersAux (domain : Str) : Headers → Headers → Headers
  | [], m => m
  | (k, v) :: rest, m =>
    rewriteHeadersAux domain rest
      (headerPut m (rewriteName domain k) (v.map (rewriteValue domain)))

/-- The complete header rewrite pass over a header map. -/
def rewriteHeadersPass (domain : Str) (h : Headers) : Headers :=
  rewriteHeadersAux domain h h

/-- Security headers stripped after the rewrite pass (tor.go:121-124). -/
def stripSecurityHeaders (h : Headers) : Headers :=
  headerDel (headerDel (headerDel h (("Strict-Transport-Security").data))
    (("Public-Key-Pins").data)) (("Public-Key-Pins-Report-Only").data)

/-- The fixed content-type allow-list of `Tor.ModifyResponse` (tor.go:135-149). -/
def contentTypesForReplace : List Str :=
  [("text/plain").data, ("text/html").data, ("text/css").data,
   ("text/javascript").data, ("text/xml").data,
   ("application/x-javascript").data, ("application/javascript").data,
   ("application/json").data, ("application/ld+json").data,
   ("application/xml").data, ("application/rss+xml").data,
   ("application/atom+xml").data, ("application/rdf+xml").data]

/-- The three body replacements of `Tor.ModifyResponse` (tor.go:204-207). -/
def bodyRewrite (domain body : Str) : Str :=
  let b1 := replAll body (onionStr ++ ['/']) (domain ++ ['/'])
  let b2 := replAll b1 (onionStr ++ ['"']) (domain ++ ['"'])
  replAll b2 (onionStr ++ ['<']) (domain ++ ['<'])

/-- Word characters of the RE2 `\b` assertion: `[0-9A-Za-z_]`. -/
def isWordChar (c : Char) : Bool :=
  ('0' ≤ c && c ≤ '9') || ('a' ≤ c && c ≤ 'z') || ('A' ≤ c && c ≤ 'Z') || c == '_'

/-- Case-insensitive literal match of `word` at the start of `s`
(ASCII folding). -/
def foldStarts : Str → Str → Bool
  | [], _ => true
  | _ :: _, [] => false
  | w :: ws, c :: cs => lowerAscii w == lowerAscii c && foldStarts ws cs

/-- The RE2 `\b` assertion between two (possibly absent) characters:
exactly one side is a word character. -/
def boundary (a b : Option Char) : Bool :=
  (match a with | some c => isWordChar c | none => false) !=
  (match b with | some c => isWordChar c | none => false)

/-- Does `(?i)\b word \b` match exactly at the start of `s`, where `prev`
is the character immediately before that position (if any)? -/
def wordMatchAt (word : Str) (prev : Option Char) (s : Str) : Bool :=
  foldStarts word s &&
  boundary prev s.head? &&
  boundary (if word.isEmpty then prev else (s.take word.length).getLast?)
    ((s.drop word.length).head?)

/-- Scan of `(?i)\b word \b` over the rest of the text, `prev` being the
character before the current position. -/
def wordMatchScan (word : Str) (prev : Option Char) : Str → Bool
  | [] => wordMatchAt word prev []
  | c :: cs => wordMatchAt word prev (c :: cs) || wordMatchScan word (some c) cs

/-- Model of the compiled blacklist pattern of `tor.New` (tor.go:38):
`regexp.MustCompile("(?i)\b" + QuoteMeta(word) + "\b").Match(body)`,
with ASCII case folding. -/
def wordBoundaryMatch (word body : Str) : Bool :=
  wordMatchScan word none body

/-- An HTTP response, reduced to the parts `Tor.ModifyResponse` touches. -/
structure Response where
  headers : Headers
  body : Str
deriving DecidableEq

/-- The `Tor` value built by `tor.New` (tor.go:27-47): the configured
domain and the blacklist words in insertion order (one admissible
iteration order of the Go word map). -/
structure TorCfg where
  domain : Str
  blacklist : List Str
deriving DecidableEq

/-- Model of `tor.New` (tor.go:27-47): split the configured word list on
commas and drop empty words. -/
def torNew (domain blacklistedWords : Str) : TorCfg :=
  TorCfg.mk domain ((splitOnChar ',' blacklistedWords).filter (fun w => w ≠ []))

/-- The gzip / zlib / brotli codecs used by `Tor.ModifyResponse`,
treated as external collaborators (`compress/gzip`, `compress/zlib`,
`github.com/andybalholm/brotli`). -/
structure Codecs where
  gunzip : Str → Except Str Str
  gzipEnc : Str → Except Str Str
  unzlib : Str → Except Str Str
  zlibEnc : Str → Except Str Str
  unbrotli : Str → Except Str Str
  brotliEnc : Str → Except Str Str

/-- Which decompression branch of tor.go:172-196 ran. -/
inductive EncTag
  | plain
  | gz
  | zl
  | br
deriving DecidableEq

/-- The `Content-Encoding` dispatch of `Tor.ModifyResponse`
(tor.go:166-196): case-insensitive comparison, in source order. -/
def decodeBody (codecs : Codecs) (ce body : Str) : Except Str (Str × EncTag) :=
  if eqFold ce (("gzip").data) then
    match codecs.gunzip body with
    | .error e => .error ((("could not create gzip reader: ").data) ++ e)
    | .ok b => .ok (b, .gz)
  else if eqFold ce (("deflate").data) then
    match codecs.unzlib body with
    | .error e => .error ((("could not create zlib reader: ").data) ++ e)
    | .ok b => .ok (b, .zl)
  else if eqFold ce (("br").data) then
    match codecs.unbrotli body with
    | .error e => .error ((("error on reading body: ").data) ++ e)
    | .ok b => .ok (b, .br)
  else .ok (body, .plain)

/-- The recompression step of `Tor.ModifyResponse` (tor.go:216-237). -/
def encodeBody (codecs : Codecs) (tag : EncTag) (body : Str) : Except Str Str :=
  match tag with
  | .plain => .ok body
  | .gz =>
    match codecs.gzipEnc body with
    | .error e => .error ((("could not gzip body: ").data) ++ e)
    | .ok b => .ok b
  | .zl =>
    match codecs.zlibEnc body with
    | .error e => .error ((("could not zlib body: ").data) ++ e)
    | .ok b => .ok b
  | .br =>
    match codecs.brotliEnc body with
    | .error e => .error ((("could not brotli body: ").data) ++ e)
    | .ok b => .ok b

/-- First blacklist word whose pattern matches the body (tor.go:209-213). -/
def blacklistHit (words : List Str) (body : Str) : Option Str :=
  words.find? (fun w => wordBoundaryMatch w body)

/-- The error text of the blacklist veto (tor.go:211), `%q` rendered as
plain double quotes. -/
def forbiddenMsg (w : Str) : Str :=
  (("access to the site is forbidden because it contains the blacklisted word ").data)
    ++ '"' :: (w ++ ['"'])

/-- Decimal rendering of `fmt.Sprint(len(body))`. -/
def natToStr (n : Nat) : Str := Nat.toDigits 10 n

/-- The download short-circuit test of tor.go:128-132: the header is
present, non-empty, and its first value starts with `attachment`. -/
def dispositionAttachment (h : Headers) : Bool :=
  match headerFind h (("Content-Disposition").data) with
  | some (v :: _) => startsWith (("attachment").data) v
  | _ => false

/-- The content-type gate of tor.go:157-164: with a non-empty value list,
skip the body rewrite when the MIME type (text before the first `;`) is
not in the allow-list; an empty value list falls through to the rewrite. -/
def skipForContentType (ctvs : List Str) : Bool :=
  match ctvs with
  | [] => false
  | ct :: _ => !(sliceContains contentTypesForReplace (takeUntilChar ';' ct))

/-- Model of `Tor.ModifyResponse` (tor.go:99-245). -/
def modifyResponse (t : TorCfg) (codecs : Codecs) (resp : Response) :
    Except Str Response :=
  let domain := normalizeDomain t.domain
  let hs := stripSecurityHeaders (rewriteHeadersPass domain resp.headers)
  if dispositionAttachment hs then .ok (Response.mk hs resp.body)
  else
    match headerFind hs (("Content-Type").data) with
    | none => .ok (Response.mk hs resp.body)
    | some ctvs =>
      if skipForContentType ctvs then .ok (Response.mk hs resp.body)
      else
        match decodeBody codecs (headerGetFirst hs (("Content-Encoding").data)) resp.body with
        | .error e => .error e
        | .ok (plain, tag) =>
          let body2 := bodyRewrite domain plain
          match blacklistHit t.blacklist body2 with
          | some w => .error (forbiddenMsg w)
          | none =>
            match encodeBody codecs tag body2 with
            | .error e => .error e
            | .ok body3 =>
              .ok (Response.mk
                (headerPut hs (("Content-Length").data) [natToStr body3.length])
                body3)

/-! ## The request rewriter -/

/-- The parts of `url.URL` the rewriter touches; `port` is the value
`URL.Port()` returns. -/
structure Url where
  scheme : Str
  host : Str
  port : Str
deriving DecidableEq

/-- An HTTP request, reduced to the parts the rewriter touches. -/
structure Request where
  host : Str
  url : Url
  headers : Headers
  tls : Bool
deriving DecidableEq

/-- The `httputil.ProxyRequest` pair: the inbound request and the outbound clone. -/
structure ProxyRequest where
  inq : Request
  out : Request
deriving DecidableEq

/-- Host/port extraction shared by `Tor.Rewrite` (tor.go:55-60) and
`application.director` (proxy.go:14-19): split host and port; on error
(no port present) use the whole host and fall back to the URL port. -/
def extractHostPort (r : Request) : Str × Str :=
  match splitHostPort r.host with
  | .ok hp => hp
  | .error _ => (r.host, r.url.port)

/-- The outbound-host computation of `Tor.Rewrite` (tor.go:62-67), for an
already-normalized domain: strip the domain suffix, strip one trailing
dot, append `.onion`, and re-attach any non-default port. -/
def rewriteHostPort (domain host port : Str) : Str :=
  let h1 := trimSuffix host domain
  let h2 := trimSuffix h1 ['.']
  let h3 := h2 ++ onionStr
  if port ≠ [] && port ≠ (("80").data) && port ≠ (("443").data) then
    joinHostPort h3 port
  else h3

/-- The outbound-scheme computation of `Tor.Rewrite` (tor.go:69-89). -/
def rewriteScheme (r : Request) (port : Str) : Str :=
  let s1 :=
    if r.url.scheme = [] then
      let h := headerGetFirst r.headers (("X-Forwarded-Proto").data)
      if h ≠ [] then h
      else if port = [] then ("http").data
      else if port = (("80").data) then ("http").data
      else if port = (("443").data) then ("https").data
      else ("http").data
    else r.url.scheme
  if r.tls then ("https").data else s1

/-- Model of `Tor.Rewrite` (tor.go:49-96): compute outbound host and
scheme from the inbound request and set them on the outbound one. -/
def torRewrite (t : TorCfg) (pr : ProxyRequest) : ProxyRequest :=
  let domain := normalizeDomain t.domain
  let hp := extractHostPort pr.inq
  let host := rewriteHostPort domain hp.fst hp.snd
  let scheme := rewriteScheme pr.inq hp.snd
  ProxyRequest.mk pr.inq
    (Request.mk host (Url.mk scheme host pr.out.url.port) pr.out.headers pr.out.tls)

/-- Model of net/http/httputil building `ProxyRequest.Out` before calling
the `Rewrite` hook: the outbound request starts as a copy of the inbound
one with the `Forwarded`, `X-Forwarded-For`, `X-Forwarded-Host` and
`X-Forwarded-Proto` headers removed (documented `ReverseProxy.Rewrite`
behavior; external collaborator). -/
def mkProxyRequest (r : Request) : ProxyRequest :=
  ProxyRequest.mk r
    (Request.mk r.host r.url
      (headerDel (headerDel (headerDel (headerDel r.headers
        (("Forwarded").data)) (("X-Forwarded-For").data))
        (("X-Forwarded-Host").data)) (("X-Forwarded-Proto").data))
      r.tls)

/-- Model of `application.director` (proxy.go:13-65), the pre-`Rewrite`
request hook of the chi version: same host computation, port-only scheme
inference, and `r.Header["X-Forwarded-For"] = nil`. -/
def director (appDomain : Str) (r : Request) : Request :=
  let hp := extractHostPort r
  let domain := normalizeDomain appDomain
  let host := rewriteHostPort domain hp.fst hp.snd
  let scheme :=
    if r.url.scheme = [] then
      if hp.snd = [] then ("http").data
      else if hp.snd = (("80").data) then ("http").data
      else if hp.snd = (("443").data) then ("https").data
      else ("http").data
    else r.url.scheme
  Request.mk host (Url.mk scheme host r.url.port)
    (headerPut r.headers (("X-Forwarded-For").data) []) r.tls

/-! ## The access-control gate (src/main.go:374-434 and
src/unnamed/part_002:104-162) -/

/-- A parsed IP address (`netip.Addr`), as a 32-bit or 128-bit value. -/
inductive Addr
  | v4 (bits : Nat)
  | v6 (bits : Nat)
deriving DecidableEq

/-- A CIDR range (`netip.Prefix`). -/
structure Cidr where
  addr : Addr
  maskBits : Nat
deriving DecidableEq

/-- Model of `netip.Prefix.Contains`: same family and equal top
`maskBits` bits. -/
def cidrContains (p : Cidr) (a : Addr) : Bool :=
  match p.addr, a with
  | .v4 x, .v4 y => (x / 2 ^ (32 - p.maskBits)) == (y / 2 ^ (32 - p.maskBits))
  | .v6 x, .v6 y => (x / 2 ^ (128 - p.maskBits)) == (y / 2 ^ (128 - p.maskBits))
  | _, _ => false

/-- One dotted-quad field: one to three decimal digits, no leading zero,
value at most 255 (the rules of `netip.ParseAddr`). -/
def parseV4Field (f : Str) : Option Nat :=
  if f ≠ [] && f.all (fun c => '0' ≤ c && c ≤ '9') &&
      f.length ≤ 3 && (f.length == 1 || !(f.headI == '0')) then
    let v := f.foldl (fun acc c => acc * 10 + (c.toNat - 48)) 0
    if v ≤ 255 then some v else none
  else none

/-- Model of the IPv4 branch of `netip.ParseAddr`.  IPv6 literals are not
modelled (they return `none` here); the gate theorems therefore take the
parser as a parameter and only this concrete model is used on IPv4 and
garbage inputs. -/
def parseAddrModel (s : Str) : Option Addr :=
  if hasChar s ':' || hasChar s '%' then none
  else match (splitOnChar '.' s).mapM parseV4Field with
    | some [a, b, c, d] => some (.v4 (((a * 256 + b) * 256 + c) * 256 + d))
    | _ => none

/-- The configured access policy of `application` / `server`. -/
structure Policy where
  allowedHosts : List Str
  allowedIPs : List Str
  allowedIPRanges : List Cidr
deriving DecidableEq

/-- Outcome of the gate: pass the request on, or deny with an HTTP
status code. -/
inductive GateResult
  | allow
  | deny (status : Nat)
deriving DecidableEq

/-- Remote-IP extraction (src/main.go:382-386): strip the port if one is
present, otherwise use the address as-is; then trim white space. -/
def extractRemoteIP (remoteAddr : Str) : Str :=
  trimSpace
    (match splitHostPort remoteAddr with
     | .ok hp => hp.fst
     | .error _ => remoteAddr)

/-- The `allowedHosts` loop (src/main.go:415-430): resolve each host via
the DNS client; a resolution failure denies with 500; a resolved IP equal
to the remote IP allows; if no host matches, deny with 403
(src/main.go:432). -/
def checkAllowedHosts (dns : Str → Except Str (List Str)) (remoteIP : Str) :
    List Str → GateResult
  | [] => .deny 403
  | d :: rest =>
    match dns d with
    | .error _ => .deny 500
    | .ok ips =>
      if ips.contains remoteIP then .allow
      else checkAllowedHosts dns remoteIP rest

/-- Model of `application.ipAuthMiddleware` (src/main.go:374-434).
`parse` models `netip.ParseAddr`, `dns` the DNS client. -/
def ipAuthGate (parse : Str → Option Addr)
    (dns : Str → Except Str (List Str)) (pol : Policy)
    (remoteAddr : Str) : GateResult :=
  if pol.allowedHosts = [] ∧ pol.allowedIPs = [] ∧ pol.allowedIPRanges = [] then
    .allow
  else
    let remoteIP := extractRemoteIP remoteAddr
    if remoteIP = [] then .deny 400
    else
      match parse remoteIP with
      | none => .deny 400
      | some a =>
        if pol.allowedIPs.contains remoteIP then .allow
        else if pol.allowedIPRanges.any (fun p => cidrContains p a) then .allow
        else checkAllowedHosts dns remoteIP pol.allowedHosts

/-- Model of `server.ipAuthMiddleware` (src/unnamed/part_002:104-162):
identical to `ipAuthGate` except that an unparsable non-empty remote IP
is denied with `http.StatusBadGateway` (502), part_002:123-127. -/
def serverIpAuthGate (parse : Str → Option Addr)
    (dns : Str → Except Str (List Str)) (pol : Policy)
    (remoteAddr : Str) : GateResult :=
  if pol.allowedHosts = [] ∧ pol.allowedIPs = [] ∧ pol.allowedIPRanges = [] then
    .allow
  else
    let remoteIP := extractRemoteIP remoteAddr
    if remoteIP = [] then .deny 400
    else
      match parse remoteIP with
      | none => .deny 502
      | some a =>
        if pol.allowedIPs.contains remoteIP then .allow
        else if pol.allowedIPRanges.any (fun p => cidrContains p a) then .allow
        else checkAllowedHosts dns remoteIP pol.allowedHosts

/-! ## The DNS resolution cache (src/internal/dns/dns.go) -/

/-- A `go-cache` item: the resolved IPs and the expiry instant
(0 meaning no expiry). -/
structure CacheItem where
  val : List Str
  expiration : Nat
deriving DecidableEq

/-- The cache contents: hostname to item. -/
abbrev DnsCache := List (Str × CacheItem)

/-- Model of the go-cache `Cache.Get`: present and, when an expiry is
set, not yet strictly past it. -/
def cacheGet (items : DnsCache) (now : Nat) (k : Str) : Option (List Str) :=
  match items.find? (fun e => e.fst == k) with
  | none => none
  | some e =>
    if e.snd.expiration > 0 && now > e.snd.expiration then none
    else some e.snd.val

/-- Model of the go-cache `Cache.Set` with the default TTL: replace any
existing entry, expiring at `now + ttl` (no expiry when `ttl = 0`). -/
def cacheSet (items : DnsCache) (now ttl : Nat) (k : Str) (v : List Str) :
    DnsCache :=
  (items.filter (fun e => !(e.fst == k))) ++
    [(k, CacheItem.mk v (if ttl > 0 then now + ttl else 0))]

/-- Model of `DnsClient.IPLookup` (dns.go:27-44).  The third component
records whether the underlying resolver was invoked. -/
def ipLookup (resolver : Str → Except Str (List Str)) (ttl now : Nat)
    (items : DnsCache) (domain : Str) :
    Except Str (List Str) × DnsCache × Bool :=
  match cacheGet items now domain with
  | some v => (.ok v, items, false)
  | none =>
    match resolver domain with
    | .error e => (.error e, items, true)
    | .ok addr => (.ok addr, cacheSet items now ttl domain addr, true)

/-! ## String lemmas -/

theorem replAllFuel_no_occurrence (pat rep : Str) :
    ∀ (s : Str), subOccurs pat s = false →
      replAllFuel pat rep s.length s = s := by
  intro s
  induction s with
  | nil => intro _; rfl
  | cons c cs ih =>
    intro h
    have hocc : subOccurs pat cs = false := by
      simp only [subOccurs, Bool.or_eq_false_iff] at h
      exact h.2
    have hpre : startsWith pat (c :: cs) = false := by
      simp only [subOccurs, Bool.or_eq_false_iff] at h
      exact h.1
    simp only [List.length_cons, replAllFuel, hpre, Bool.and_false,
      Bool.false_eq_true, if_false, ne_eq]
    rw [ih hocc]

/-- Model fact: `strings.ReplaceAll` leaves a string without an occurrence of the
pattern unchanged. -/
theorem replAll_no_occurrence (s pat rep : Str)
    (h : subOccurs pat s = false) : replAll s pat rep = s :=
  replAllFuel_no_occurrence pat rep s h

theorem replAll_nil (pat rep : Str) : replAll [] pat rep = [] := rfl

theorem replAll_cons_no_match (pat rep : Str) (c : Char) (cs : Str)
    (h : startsWith pat (c :: cs) = false) :
    replAll (c :: cs) pat rep = c :: replAll cs pat rep := by
  simp only [replAll, List.length_cons, replAllFuel, h, Bool.and_false,
    Bool.false_eq_true, if_false, ne_eq]

/-- A prefix made of characters that cannot start the pattern survives
`ReplaceAll`: if the pattern starts with `'.'` and no character of `p`
is `'.'`, any string starting with `p` is rewritten to a string that
still starts with `p`. -/
theorem startsWith_replAll_of_no_dot (pat rep : Str)
    (hpat : pat.headI = '.') (hpat0 : pat ≠ []) :
    ∀ (s p : Str), (∀ x ∈ p, x ≠ '.') → startsWith p s = true →
      startsWith p (replAll s pat rep) = true := by
  intro s
  induction s with
  | nil =>
    intro p _ hsw
    cases p with
    | nil => rfl
    | cons q qs => simp [startsWith] at hsw
  | cons c cs ih =>
    intro p hp hsw
    cases p with
    | nil => rfl
    | cons q qs =>
      simp only [startsWith, Bool.and_eq_true, beq_iff_eq] at hsw
      have hq : q = c := hsw.1
      have hqdot : q ≠ '.' := hp q (by simp)
      have hnostart : startsWith pat (c :: cs) = false := by
        cases pat with
        | nil => exact absurd rfl hpat0
        | cons pc pcs =>
          have : pc = '.' := hpat
          subst this
          simp only [startsWith, Bool.and_eq_false_iff, beq_eq_false_iff_ne]
          left
          intro hcontra
          exact hqdot (by rw [hq, ← hcontra])
      rw [replAll_cons_no_match pat rep c cs hnostart]
      simp only [startsWith, Bool.and_eq_true, beq_iff_eq]
      exact ⟨hq, ih qs (fun x hx => hp x (by simp [hx])) hsw.2⟩

/-- With a suffix present, `strings.TrimSuffix` removes exactly it. -/
theorem trimSuffix_of_endsWith (s suf : Str) (h : endsWith suf s = true) :
    trimSuffix s suf = s.take (s.length - suf.length) := by
  simp [trimSuffix, h]

theorem hasChar_append (a b : Str) (ch : Char) :
    hasChar (a ++ b) ch = (hasChar a ch || hasChar b ch) := by
  simp [hasChar]

theorem hasChar_take_false (s : Str) (n : Nat) (ch : Char)
    (h : hasChar s ch = false) : hasChar (s.take n) ch = false := by
  simp only [hasChar, List.any_eq_false] at h ⊢
  intro x hx
  exact h x (List.take_subset n s hx)

theorem hasChar_dropLast_false (s : Str) (ch : Char)
    (h : hasChar s ch = false) : hasChar s.dropLast ch = false := by
  simp only [hasChar, List.any_eq_false] at h ⊢
  intro x hx
  exact h x (List.dropLast_subset s hx)

theorem lastIndexOfChar_none_of_hasChar_false (s : Str) (ch : Char)
    (h : hasChar s ch = false) : lastIndexOfChar s ch = none := by
  induction s with
  | nil => rfl
  | cons c cs ih =>
    simp only [hasChar, List.any_cons, Bool.or_eq_false_iff] at h
    simp only [lastIndexOfChar, ih (by simp [hasChar, h.2]), h.1,
      Bool.false_eq_true, if_false]

/-- An address without a colon has no port: `net.SplitHostPort` fails and
the extraction uses the whole (trimmed) address. -/
theorem extractRemoteIP_no_colon (s : Str) (h : hasChar s ':' = false) :
    extractRemoteIP s = trimSpace s := by
  simp [extractRemoteIP, splitHostPort,
    lastIndexOfChar_none_of_hasChar_false s ':' h]

/-! ## Header-map lemmas -/

theorem find_map_put_of_ne (l : Headers) (k k2 : Str) (v : List Str)
    (hne : k2 ≠ k) :
    List.find? (fun e => e.fst == k2)
      (l.map (fun e => if e.fst == k then (k, v) else e)) =
    List.find? (fun e => e.fst == k2) l := by
  induction l with
  | nil => rfl
  | cons e rest ih =>
    by_cases he : (e.fst == k) = true
    · have hek : e.fst = k := by simpa using he
      have hkk2 : (k == k2) = false := by simp [Ne.symm hne]
      have he2 : (e.fst == k2) = false := by simp [hek, Ne.symm hne]
      simp only [List.map_cons, he, if_true, List.find?, hkk2, he2]
      exact ih
    · simp only [List.map_cons, he, Bool.false_eq_true, if_false, List.find?]
      cases he2 : (e.fst == k2) with
      | true => rfl
      | false => exact ih

theorem find_map_put_of_found (l : Headers) (k : Str) (v : List Str)
    (hfind : (l.find? (fun e => e.fst == k)).isSome = true) :
    List.find? (fun e => e.fst == k)
      (l.map (fun e => if e.fst == k then (k, v) else e)) = some (k, v) := by
  induction l with
  | nil => simp [List.find?] at hfind
  | cons e rest ih =>
    by_cases he : (e.fst == k) = true
    · simp [List.find?, he]
    · have hrest : (rest.find? (fun x => x.fst == k)).isSome = true := by
        simpa [List.find?, he] using hfind
      simp only [List.map_cons, he, Bool.false_eq_true, if_false, List.find?, he]
      exact ih hrest

theorem headerFind_put_self (h : Headers) (k : Str) (v : List Str) :
    headerFind (headerPut h k v) k = some v := by
  unfold headerPut headerFind
  by_cases hfind : (h.find? (fun e => e.fst == k)).isSome = true
  · simp only [hfind, if_true, find_map_put_of_found h k v hfind]
  · simp only [hfind, Bool.false_eq_true, if_false]
    rw [List.find?_append]
    cases hf : h.find? (fun e => e.fst == k) with
    | some e => simp [hf] at hfind
    | none => simp [List.find?]

theorem headerFind_put_other (h : Headers) (k k2 : Str) (v : List Str)
    (hne : k2 ≠ k) : headerFind (headerPut h k v) k2 = headerFind h k2 := by
  unfold headerPut headerFind
  by_cases hfind : (h.find? (fun e => e.fst == k)).isSome = true
  · simp only [hfind, if_true, find_map_put_of_ne h k k2 v hne]
  · simp only [hfind, Bool.false_eq_true, if_false]
    rw [List.find?_append]
    cases hf : h.find? (fun e => e.fst == k2) with
    | some e => simp
    | none =>
      have : (k == k2) = false := by simp [Ne.symm hne]
      simp [List.find?, this]

theorem headerFind_del_self (h : Headers) (k : Str) :
    headerFind (headerDel h k) k = none := by
  unfold headerFind headerDel
  induction h with
  | nil => rfl
  | cons e rest ih =>
    by_cases he : (e.fst == k) = true
    · simpa [List.filter, he] using ih
    · simpa [List.filter, he, List.find?] using ih

theorem headerFind_del_other (h : Headers) (k k2 : Str) (hne : k2 ≠ k) :
    headerFind (headerDel h k) k2 = headerFind h k2 := by
  unfold headerFind headerDel
  induction h with
  | nil => rfl
  | cons e rest ih =>
    by_cases he : (e.fst == k) = true
    · have hek : e.fst = k := by simpa using he
      have he2 : (e.fst == k2) = false := by simp [hek, Ne.symm hne]
      simpa [List.filter, he, List.find?, he2] using ih
    · by_cases he2 : (e.fst == k2) = true
      · simp [List.filter, he, List.find?, he2]
      · simpa [List.filter, he, List.find?, he2] using ih

theorem headerFind_of_mem_nodup (h : Headers) (k : Str) (v : List Str)
    (hmem : (k, v) ∈ h) (hnd : (h.map Prod.fst).Nodup) :
    headerFind h k = some v := by
  induction h with
  | nil => simp at hmem
  | cons e rest ih =>
    rw [List.map_cons] at hnd
    have hnd2 := List.nodup_cons.mp hnd
    rcases List.mem_cons.mp hmem with heq | hrest
    · subst heq
      simp [headerFind, List.find?]
    · have hk : k ∈ rest.map Prod.fst :=
        List.mem_map.mpr ⟨(k, v), hrest, rfl⟩
      have hne : e.fst ≠ k := fun hcontra => hnd2.1 (hcontra ▸ hk)
      have : (e.fst == k) = false := by simp [hne]
      simpa [headerFind, List.find?, this] using ih hrest hnd2.2

/-- Header names that no original entry rewrites to keep their binding
through the rewrite pass. -/
theorem rewriteAux_find_untouched (d : Str) :
    ∀ (orig : Headers) (m : Headers) (t : Str),
      (∀ e ∈ orig, rewriteName d e.fst ≠ t) →
      headerFind (rewriteHeadersAux d orig m) t = headerFind m t := by
  intro orig
  induction orig with
  | nil => intro m t _; rfl
  | cons e rest ih =>
    intro m t hyp
    simp only [rewriteHeadersAux]
    rw [ih _ t (fun x hx => hyp x (by simp [hx]))]
    exact headerFind_put_other _ _ _ _ (fun hh => hyp e (by simp) hh.symm)

/-- The binding the rewrite pass installs under the rewritten name of an
entry whose rewritten name no other entry also produces. -/
theorem rewriteAux_find_target (d : Str) :
    ∀ (orig : Headers) (m : Headers) (k t : Str) (v : List Str),
      (orig.map Prod.fst).Nodup → (k, v) ∈ orig → rewriteName d k = t →
      (∀ e ∈ orig, e.fst ≠ k → rewriteName d e.fst ≠ t) →
      headerFind (rewriteHeadersAux d orig m) t = some (v.map (rewriteValue d)) := by
  intro orig
  induction orig with
  | nil => intro m k t v _ hmem; simp at hmem
  | cons e rest ih =>
    intro m k t v hnd hmem ht hyp
    rw [List.map_cons] at hnd
    have hndt := List.nodup_cons.mp hnd
    rcases List.mem_cons.mp hmem with heq | hrest
    · subst heq
      simp only [rewriteHeadersAux]
      have hrest2 : ∀ x ∈ rest, rewriteName d x.fst ≠ t := by
        intro x hx
        apply hyp x (by simp [hx])
        intro hcontra
        exact hndt.1 (hcontra ▸ List.mem_map.mpr ⟨x, hx, rfl⟩)
      rw [rewriteAux_find_untouched d rest _ t hrest2, ht,
        headerFind_put_self]
    · have hne : e.fst ≠ k := by
        intro hcontra
        exact hndt.1 (hcontra ▸ List.mem_map.mpr ⟨(k, v), hrest, rfl⟩)
      simp only [rewriteHeadersAux]
      exact ih _ k t v hndt.2 hrest ht
        (fun x hx hxk => hyp x (by simp [hx]) hxk)

/-! ## Gate and cache lemmas -/

theorem strContains_iff_mem (l : List Str) (a : Str) :
    l.contains a = true ↔ a ∈ l := by
  induction l with
  | nil => simp
  | cons x xs ih => simp [ih]

theorem checkAllowedHosts_spec (dns : Str → Except Str (List Str))
    (rip : Str) (hosts : List Str)
    (hok : ∀ hd ∈ hosts, ∃ ips, dns hd = .ok ips) :
    (checkAllowedHosts dns rip hosts = .allow ↔
      ∃ hd ∈ hosts, ∃ ips, dns hd = .ok ips ∧ rip ∈ ips) ∧
    (checkAllowedHosts dns rip hosts ≠ .allow →
      checkAllowedHosts dns rip hosts = .deny 403) := by
  induction hosts with
  | nil => simp [checkAllowedHosts]
  | cons d rest ih =>
    obtain ⟨ips, hips⟩ := hok d (by simp)
    have ihr := ih (fun x hx => hok x (by simp [hx]))
    by_cases hc : ips.contains rip = true
    · have hmem := (strContains_iff_mem ips rip).mp hc
      have hstep : checkAllowedHosts dns rip (d :: rest) = .allow := by
        unfold checkAllowedHosts
        rw [hips]
        simp only [hc, if_true]
      constructor
      · constructor
        · intro _
          exact ⟨d, by simp, ips, hips, hmem⟩
        · intro _
          exact hstep
      · intro hne
        exact absurd hstep hne
    · have hcf : ips.contains rip = false := by simpa using hc
      have hstep0 : checkAllowedHosts dns rip (d :: rest) =
          (match dns d with
           | Except.error _ => GateResult.deny 500
           | Except.ok l =>
             if l.contains rip = true then GateResult.allow
             else checkAllowedHosts dns rip rest) := rfl
      have hstep : checkAllowedHosts dns rip (d :: rest) =
          checkAllowedHosts dns rip rest := by
        rw [hstep0, hips]
        simp only [hcf, Bool.false_eq_true, if_false]
      rw [hstep]
      constructor
      · rw [ihr.1]
        constructor
        · rintro ⟨hd, hhd, ips2, hips2, hmem2⟩
          exact ⟨hd, by simp [hhd], ips2, hips2, hmem2⟩
        · rintro ⟨hd, hhd, ips2, hips2, hmem2⟩
          rcases List.mem_cons.mp hhd with heq | hrest
          · subst heq
            rw [hips] at hips2
            cases hips2
            exact absurd ((strContains_iff_mem ips rip).mpr hmem2) hc
          · exact ⟨hd, hrest, ips2, hips2, hmem2⟩
      · exact ihr.2

theorem cacheGet_set_fresh (items : DnsCache) (now ttl now2 : Nat)
    (k : Str) (v : List Str) (httl : 0 < ttl) (hnow : now2 ≤ now + ttl) :
    cacheGet (cacheSet items now ttl k v) now2 k = some v := by
  unfold cacheGet cacheSet
  rw [List.find?_append]
  have hnone : (items.filter (fun e => !(e.fst == k))).find?
      (fun e => e.fst == k) = none := by
    rw [List.find?_eq_none]
    intro x hx
    have := (List.mem_filter.mp hx).2
    simp only [Bool.not_eq_eq_eq_not, Bool.not_true] at this
    simp [this]
  rw [hnone]
  have httl2 : (if ttl > 0 then now + ttl else 0) = now + ttl := by
    simp [httl]
  simp only [Option.none_or, List.find?, beq_self_eq_true, httl2]
  have : ¬(now2 > now + ttl) := by omega
  simp [this, Nat.lt_of_lt_of_le httl (by omega : ttl ≤ now + ttl)]

/-! ## Claim C7: the access-control gate -/

/-- C7: with an empty policy the gate allows every request; with a
non-empty policy and a parseable remote IP whose allowed-host lookups
all resolve, the gate allows exactly when the remote IP string equals an
`allowedIPs` entry, or the parsed address lies in an `allowedIPRanges`
prefix, or the remote IP equals one of the IPs resolved for an
`allowedHosts` entry (checked in that order); otherwise it denies with
Forbidden (403). -/
theorem claim_c7_access_gate (parse : Str → Option Addr)
    (dns : Str → Except Str (List Str)) (pol : Policy)
    (remoteAddr : Str) (a : Addr) :
    (pol.allowedHosts = [] ∧ pol.allowedIPs = [] ∧ pol.allowedIPRanges = [] →
      ipAuthGate parse dns pol remoteAddr = .allow) ∧
    (¬(pol.allowedHosts = [] ∧ pol.allowedIPs = [] ∧ pol.allowedIPRanges = []) →
      extractRemoteIP remoteAddr ≠ [] →
      parse (extractRemoteIP remoteAddr) = some a →
      (∀ hd ∈ pol.allowedHosts, ∃ ips, dns hd = .ok ips) →
      ((ipAuthGate parse dns pol remoteAddr = .allow ↔
          extractRemoteIP remoteAddr ∈ pol.allowedIPs ∨
          (∃ p ∈ pol.allowedIPRanges, cidrContains p a = true) ∨
          (∃ hd ∈ pol.allowedHosts, ∃ ips, dns hd = .ok ips ∧
            extractRemoteIP remoteAddr ∈ ips)) ∧
        (ipAuthGate parse dns pol remoteAddr ≠ .allow →
          ipAuthGate parse dns pol remoteAddr = .deny 403))) := by
  constructor
  · intro he
    unfold ipAuthGate
    rw [if_pos he]
  · intro hne hrip hparse hok
    have hgate : ipAuthGate parse dns pol remoteAddr =
        (if pol.allowedIPs.contains (extractRemoteIP remoteAddr) = true then
          GateResult.allow
         else if pol.allowedIPRanges.any (fun p => cidrContains p a) = true then
          GateResult.allow
         else checkAllowedHosts dns (extractRemoteIP remoteAddr)
          pol.allowedHosts) := by
      unfold ipAuthGate
      rw [if_neg hne]
      simp only []
      rw [if_neg hrip, hparse]
    obtain ⟨hiff, h403⟩ :=
      checkAllowedHosts_spec dns (extractRemoteIP remoteAddr)
        pol.allowedHosts hok
    by_cases hip : pol.allowedIPs.contains (extractRemoteIP remoteAddr) = true
    · rw [hgate, if_pos hip]
      constructor
      · constructor
        · intro _
          exact Or.inl ((strContains_iff_mem _ _).mp hip)
        · intro _
          rfl
      · intro hcontra
        exact absurd rfl hcontra
    · rw [hgate, if_neg hip]
      by_cases hrange : pol.allowedIPRanges.any (fun p => cidrContains p a) = true
      · rw [if_pos hrange]
        constructor
        · constructor
          · intro _
            exact Or.inr (Or.inl (List.any_eq_true.mp hrange))
          · intro _
            rfl
        · intro hcontra
          exact absurd rfl hcontra
      · rw [if_neg hrange]
        constructor
        · rw [hiff]
          constructor
          · intro hh
            exact Or.inr (Or.inr hh)
          · rintro (hh | hh | hh)
            · exact absurd ((strContains_iff_mem _ _).mpr hh) hip
            · exact absurd (List.any_eq_true.mpr hh) hrange
            · exact hh
        · exact h403

/-- C7 witness: concrete runs of the gate. -/
theorem claim_c7_access_gate_witness :
    ipAuthGate parseAddrModel (fun _ => Except.error [])
      (Policy.mk [] [("1.2.3.4").data] []) (("1.2.3.4:9999").data) =
      .allow ∧
    ipAuthGate parseAddrModel (fun _ => Except.error [])
      (Policy.mk [] [] [Cidr.mk (.v4 167772160) 8]) (("10.1.2.3").data) =
      .allow ∧
    ipAuthGate parseAddrModel (fun _ => Except.error [])
      (Policy.mk [] [("1.2.3.4").data] []) (("5.6.7.8").data) =
      .deny 403 := by
  refine ⟨?_, ?_, ?_⟩
  · exact ((claim_c7_access_gate parseAddrModel (fun _ => Except.error [])
      (Policy.mk [] [("1.2.3.4").data] []) (("1.2.3.4:9999").data)
      (Addr.v4 16909060)).2 (by decide) (by decide) (by decide)
      (by intro hd hmem; simp at hmem)).1.mpr (Or.inl (by decide))
  · exact ((claim_c7_access_gate parseAddrModel (fun _ => Except.error [])
      (Policy.mk [] [] [Cidr.mk (.v4 167772160) 8]) (("10.1.2.3").data)
      (Addr.v4 167838211)).2 (by decide) (by decide) (by decide)
      (by intro hd hmem; simp at hmem)).1.mpr
      (Or.inr (Or.inl ⟨Cidr.mk (.v4 167772160) 8, by simp, by decide⟩))
  · have h := (claim_c7_access_gate parseAddrModel (fun _ => Except.error [])
      (Policy.mk [] [("1.2.3.4").data] []) (("5.6.7.8").data)
      (Addr.v4 84281096)).2 (by decide) (by decide) (by decide)
      (by intro hd hmem; simp at hmem)
    apply h.2
    intro hallow
    rcases h.1.mp hallow with hh | hh | hh
    · revert hh
      decide
    · obtain ⟨p, hp, _⟩ := hh
      simp at hp
    · obtain ⟨hd, hmem, _⟩ := hh
      simp at hmem

/-! ## Claim C8: unparsable remote addresses -/

/-- C8 counterexample: in the echo version of the gate
(`server.ipAuthMiddleware`, src/unnamed/part_002:123-127), a non-empty
remote address that does not parse as an IP is denied with 502
(Bad Gateway), not with the Bad Request status the claim states. -/
theorem claim_c8_counterexample :
    serverIpAuthGate parseAddrModel (fun _ => Except.error [])
      (Policy.mk [] [("1.2.3.4").data] []) (("notanip").data) =
      .deny 502 ∧
    GateResult.deny 502 ≠ GateResult.deny 400 := by
  constructor
  · decide
  · decide

/-- C8 (amended): with a non-empty policy and a non-empty remote host
that does not parse as an IP, the chi gate (`application.ipAuthMiddleware`,
src/main.go:393-397) denies with Bad Request (400) while the echo gate
(`server.ipAuthMiddleware`, src/unnamed/part_002:123-127) denies with Bad
Gateway (502); both statuses differ from the Forbidden (403) used when no
list matches, and an address without a port component is used as-is. -/
theorem claim_c8_unparsable_remote (parse : Str → Option Addr)
    (dns : Str → Except Str (List Str)) (pol : Policy) (remoteAddr : Str)
    (hne : ¬(pol.allowedHosts = [] ∧ pol.allowedIPs = [] ∧
      pol.allowedIPRanges = []))
    (hrip : extractRemoteIP remoteAddr ≠ [])
    (hparse : parse (extractRemoteIP remoteAddr) = none) :
    ipAuthGate parse dns pol remoteAddr = .deny 400 ∧
    serverIpAuthGate parse dns pol remoteAddr = .deny 502 ∧
    GateResult.deny 400 ≠ GateResult.deny 403 ∧
    GateResult.deny 502 ≠ GateResult.deny 403 ∧
    (∀ s : Str, hasChar s ':' = false → extractRemoteIP s = trimSpace s) := by
  refine ⟨?_, ?_, by decide, by decide, extractRemoteIP_no_colon⟩
  · unfold ipAuthGate
    rw [if_neg hne]
    simp only []
    rw [if_neg hrip, hparse]
  · unfold serverIpAuthGate
    rw [if_neg hne]
    simp only []
    rw [if_neg hrip, hparse]

/-- C8 witness: the amended statement at the concrete failing input. -/
theorem claim_c8_unparsable_remote_witness :
    ipAuthGate parseAddrModel (fun _ => Except.error [])
      (Policy.mk [] [("1.2.3.4").data] []) (("notanip").data) =
      .deny 400 ∧
    serverIpAuthGate parseAddrModel (fun _ => Except.error [])
      (Policy.mk [] [("1.2.3.4").data] []) (("notanip").data) =
      .deny 502 := by
  have h := claim_c8_unparsable_remote parseAddrModel
    (fun _ => Except.error []) (Policy.mk [] [("1.2.3.4").data] [])
    (("notanip").data) (by decide) (by decide) (by decide)
  exact ⟨h.1, h.2.1⟩

/-! ## Claim C9: the DNS cache -/

/-- C9: a lookup that hits a fresh cache entry returns the cached IPs
without invoking the resolver; after a successful miss, a second lookup
within the TTL window does not invoke the resolver again; a failed
resolution returns the error, leaves the cache unchanged, and a
subsequent miss resolves again. -/
theorem claim_c9_dns_cache (resolver resolver2 : Str → Except Str (List Str))
    (ttl now now2 : Nat) (items : DnsCache) (domain : Str)
    (v addr : List Str) (e : Str) :
    (cacheGet items now domain = some v →
      ipLookup resolver ttl now items domain = (.ok v, items, false)) ∧
    (cacheGet items now domain = none → resolver domain = .ok addr →
      0 < ttl → now2 ≤ now + ttl →
      ipLookup resolver ttl now items domain =
        (.ok addr, cacheSet items now ttl domain addr, true) ∧
      ipLookup resolver2 ttl now2 (cacheSet items now ttl domain addr) domain =
        (.ok addr, cacheSet items now ttl domain addr, false)) ∧
    (cacheGet items now domain = none → resolver domain = .error e →
      ipLookup resolver ttl now items domain = (.error e, items, true) ∧
      (cacheGet items now2 domain = none →
        (ipLookup resolver2 ttl now2 items domain).snd.snd = true)) := by
  refine ⟨?_, ?_, ?_⟩
  · intro hget
    unfold ipLookup
    rw [hget]
  · intro hget hres httl hnow
    constructor
    · unfold ipLookup
      rw [hget, hres]
    · unfold ipLookup
      rw [cacheGet_set_fresh items now ttl now2 domain addr httl hnow]
  · intro hget hres
    constructor
    · unfold ipLookup
      rw [hget, hres]
    · intro hget2
      unfold ipLookup
      rw [hget2]
      cases hr : resolver2 domain with
      | error e2 => rfl
      | ok l => rfl

/-- C9 witness: a concrete miss-then-hit sequence and a concrete failed
resolution. -/
theorem claim_c9_dns_cache_witness :
    ipLookup (fun _ => Except.ok [("9.9.9.9").data]) 600 1000 []
      (("dyn.example").data) =
      (.ok [("9.9.9.9").data],
        cacheSet [] 1000 600 (("dyn.example").data) [("9.9.9.9").data],
        true) ∧
    ipLookup (fun _ => Except.error (("boom").data)) 600 1500
      (cacheSet [] 1000 600 (("dyn.example").data) [("9.9.9.9").data])
      (("dyn.example").data) =
      (.ok [("9.9.9.9").data],
        cacheSet [] 1000 600 (("dyn.example").data) [("9.9.9.9").data],
        false) ∧
    ipLookup (fun _ => Except.error (("boom").data)) 600 1000 []
      (("dyn.example").data) =
      (.error (("boom").data), [], true) := by
  have h := claim_c9_dns_cache (fun _ => Except.ok [("9.9.9.9").data])
    (fun _ => Except.error (("boom").data)) 600 1000 1500 []
    (("dyn.example").data) [] [("9.9.9.9").data] (("boom").data)
  have h2 := claim_c9_dns_cache (fun _ => Except.error (("boom").data))
    (fun _ => Except.error (("boom").data)) 600 1000 1500 []
    (("dyn.example").data) [] [] (("boom").data)
  refine ⟨?_, ?_, ?_⟩
  · exact (h.2.1 (by decide) rfl (by decide) (by decide)).1
  · exact (h.2.1 (by decide) rfl (by decide) (by decide)).2
  · exact (h2.2.2 (by decide) rfl).1

/-! ## Claim C1: the three body replacements -/

/-- C1: the body rewrite performs exactly the three anchored literal
replacements: the round-trip example rewrites as the spec states; a body
containing none of the three patterns is left unchanged; and `.onion`
followed by any character other than `/`, `"`, `<` is left unchanged. -/
theorem claim_c1_body_rewrite (d s : Str) (c : Char)
    (h1 : subOccurs (onionStr ++ ['/']) s = false)
    (h2 : subOccurs (onionStr ++ ['"']) s = false)
    (h3 : subOccurs (onionStr ++ ['<']) s = false)
    (hc1 : c ≠ '/') (hc2 : c ≠ '"') (hc3 : c ≠ '<') :
    bodyRewrite ((".example.tld").data)
      (("foo.onion/bar foo.onion\" foo.onion<").data) =
      ("foo.example.tld/bar foo.example.tld\" foo.example.tld<").data ∧
    bodyRewrite d s = s ∧
    bodyRewrite d (("foo.onion").data ++ [c]) = ("foo.onion").data ++ [c] := by
  refine ⟨by decide, ?_, ?_⟩
  · unfold bodyRewrite
    simp only []
    rw [replAll_no_occurrence s _ _ h1, replAll_no_occurrence s _ _ h2,
      replAll_no_occurrence s _ _ h3]
  · have o1 : subOccurs (onionStr ++ ['/']) (("foo.onion").data ++ [c]) = false := by
      simp [onionStr, subOccurs, startsWith, Ne.symm hc1]
    have o2 : subOccurs (onionStr ++ ['"']) (("foo.onion").data ++ [c]) = false := by
      simp [onionStr, subOccurs, startsWith, Ne.symm hc2]
    have o3 : subOccurs (onionStr ++ ['<']) (("foo.onion").data ++ [c]) = false := by
      simp [onionStr, subOccurs, startsWith, Ne.symm hc3]
    unfold bodyRewrite
    simp only []
    rw [replAll_no_occurrence _ _ _ o1, replAll_no_occurrence _ _ _ o2,
      replAll_no_occurrence _ _ _ o3]

/-- C1 witness: the general parts at concrete inputs. -/
theorem claim_c1_body_rewrite_witness :
    bodyRewrite ((".example.tld").data) (("no onions here").data) =
      ("no onions here").data ∧
    bodyRewrite ((".example.tld").data) (("foo.onion").data ++ ['s']) =
      ("foo.onion").data ++ ['s'] := by
  have h := claim_c1_body_rewrite ((".example.tld").data)
    (("no onions here").data) 's' (by decide) (by decide) (by decide)
    (by decide) (by decide) (by decide)
  exact ⟨h.2.1, h.2.2⟩

/-! ## Claim C3: the outbound host computation -/

theorem endsWith_singleton (ch : Char) (s : Str) :
    endsWith [ch] s = true ↔ s.getLast? = some ch := by
  unfold endsWith
  cases hrev : s.reverse with
  | nil =>
    have hs : s = [] := by simpa using congrArg List.reverse hrev
    subst hs
    simp [startsWith]
  | cons c cs =>
    have hlast : s.getLast? = some c := by
      rw [← List.head?_reverse, hrev]
      rfl
    rw [hlast]
    simp [startsWith, List.reverse_singleton]
    constructor
    · intro hh
      exact hh.symm
    · intro hh
      exact hh.symm

theorem trimSuffix_dot (s : Str) :
    trimSuffix s ['.'] =
      (if s.getLast? = some '.' then s.dropLast else s) := by
  unfold trimSuffix
  by_cases hl : s.getLast? = some '.'
  · rw [if_pos ((endsWith_singleton '.' s).mpr hl), if_pos hl,
      List.dropLast_eq_take]
    rfl
  · rw [if_neg hl, if_neg]
    intro hcontra
    exact hl ((endsWith_singleton '.' s).mp hcontra)

theorem joinHostPort_no_colon (host port : Str)
    (h : hasChar host ':' = false) :
    joinHostPort host port = host ++ ':' :: port := by
  unfold joinHostPort
  rw [h]
  simp

/-- C3: for a host ending in the leading-dot domain suffix, the rewriter
produces the host with the suffix removed, one trailing dot removed and
`.onion` appended, and attaches `:port` exactly when the port is none of
the empty string, `80`, `443`. -/
theorem claim_c3_rewrite_host (d h p : Str)
    (hend : endsWith d h = true) (hcolon : hasChar h ':' = false) :
    rewriteHostPort d h p =
      (let s1 := h.take (h.length - d.length)
       let s2 := if s1.getLast? = some '.' then s1.dropLast else s1
       let base := s2 ++ onionStr
       if p ≠ [] && p ≠ (("80").data) && p ≠ (("443").data) then
         base ++ ':' :: p
       else base) := by
  have hs1 : trimSuffix h d = h.take (h.length - d.length) :=
    trimSuffix_of_endsWith h d hend
  have hbasecolon :
      hasChar ((if (h.take (h.length - d.length)).getLast? = some '.' then
        (h.take (h.length - d.length)).dropLast
       else h.take (h.length - d.length)) ++ onionStr) ':' = false := by
    rw [hasChar_append]
    have htake : hasChar (h.take (h.length - d.length)) ':' = false :=
      hasChar_take_false h _ ':' hcolon
    have honion : hasChar onionStr ':' = false := by decide
    by_cases hl : (h.take (h.length - d.length)).getLast? = some '.'
    · rw [if_pos hl, hasChar_dropLast_false _ _ htake, honion]
      rfl
    · rw [if_neg hl, htake, honion]
      rfl
  unfold rewriteHostPort
  simp only []
  rw [hs1, trimSuffix_dot]
  by_cases hp : (p ≠ [] && p ≠ (("80").data) && p ≠ (("443").data)) = true
  · rw [if_pos hp, if_pos hp]
    exact joinHostPort_no_colon _ _ hbasecolon
  · rw [if_neg hp, if_neg hp]

/-- C3 witness: a concrete host with a non-default and a default port. -/
theorem claim_c3_rewrite_host_witness :
    rewriteHostPort ((".example.tld").data) (("foo.example.tld").data)
      (("8080").data) = ("foo.onion:8080").data ∧
    rewriteHostPort ((".example.tld").data) (("foo.example.tld").data)
      (("443").data) = ("foo.onion").data := by
  constructor
  · rw [claim_c3_rewrite_host ((".example.tld").data)
      (("foo.example.tld").data) (("8080").data) (by decide) (by decide)]
    decide
  · rw [claim_c3_rewrite_host ((".example.tld").data)
      (("foo.example.tld").data) (("443").data) (by decide) (by decide)]
    decide

/-! ## Claim C4: X-Forwarded-For is cleared -/

/-- C4: the outbound request never carries an inbound `X-Forwarded-For`
value: in the `Rewrite` version the outbound request is built with the
header removed and `Tor.Rewrite` does not reintroduce it; in the
`director` version the header is explicitly set to the empty value. -/
theorem claim_c4_xff_cleared (t : TorCfg) (r : Request) (appDomain : Str) :
    headerFind (torRewrite t (mkProxyRequest r)).out.headers
      (("X-Forwarded-For").data) = none ∧
    headerFind (director appDomain r).headers
      (("X-Forwarded-For").data) = some [] := by
  constructor
  · show headerFind (headerDel (headerDel (headerDel (headerDel r.headers
      (("Forwarded").data)) (("X-Forwarded-For").data))
      (("X-Forwarded-Host").data)) (("X-Forwarded-Proto").data))
      (("X-Forwarded-For").data) = none
    rw [headerFind_del_other _ _ _ (by decide),
      headerFind_del_other _ _ _ (by decide),
      headerFind_del_self]
  · show headerFind (headerPut r.headers (("X-Forwarded-For").data) [])
      (("X-Forwarded-For").data) = some []
    exact headerFind_put_self _ _ _

/-! ## Claim C6: the download short-circuit -/

/-- The identity codecs, used to instantiate witnesses. -/
def idCodecs : Codecs :=
  Codecs.mk (fun b => .ok b) (fun b => .ok b) (fun b => .ok b)
    (fun b => .ok b) (fun b => .ok b) (fun b => .ok b)

/-- C6: a response whose `Content-Disposition` is present with a first
value starting with `attachment` is returned without error and with the
body unchanged byte-for-byte; only the header rewrite and the
security-header stripping take effect. -/
theorem claim_c6_download_short_circuit (t : TorCfg) (codecs : Codecs)
    (resp : Response) (v : Str) (vs : List Str)
    (hnd : (resp.headers.map Prod.fst).Nodup)
    (hmem : ((("Content-Disposition").data), v :: vs) ∈ resp.headers)
    (hpre : startsWith (("attachment").data) v = true)
    (hfresh : ∀ e ∈ resp.headers, e.fst ≠ (("Content-Disposition").data) →
      rewriteName (normalizeDomain t.domain) e.fst ≠
        (("Content-Disposition").data)) :
    modifyResponse t codecs resp =
      .ok (Response.mk
        (stripSecurityHeaders (rewriteHeadersPass (normalizeDomain t.domain)
          resp.headers))
        resp.body) := by
  have hkk : rewriteName (normalizeDomain t.domain)
      (("Content-Disposition").data) = (("Content-Disposition").data) :=
    replAll_no_occurrence _ _ _ (by decide)
  have hpass : headerFind
      (rewriteHeadersPass (normalizeDomain t.domain) resp.headers)
      (("Content-Disposition").data) =
      some ((v :: vs).map (rewriteValue (normalizeDomain t.domain))) :=
    rewriteAux_find_target (normalizeDomain t.domain) resp.headers
      resp.headers (("Content-Disposition").data)
      (("Content-Disposition").data) (v :: vs) hnd hmem hkk hfresh
  have hstrip : headerFind
      (stripSecurityHeaders (rewriteHeadersPass (normalizeDomain t.domain)
        resp.headers))
      (("Content-Disposition").data) =
      some ((v :: vs).map (rewriteValue (normalizeDomain t.domain))) := by
    unfold stripSecurityHeaders
    rw [headerFind_del_other _ _ _ (by decide),
      headerFind_del_other _ _ _ (by decide),
      headerFind_del_other _ _ _ (by decide), hpass]
  have hrwpre : startsWith (("attachment").data)
      (rewriteValue (normalizeDomain t.domain) v) = true :=
    startsWith_replAll_of_no_dot onionStr (normalizeDomain t.domain)
      rfl (by decide) v (("attachment").data) (by decide) hpre
  have hdisp : dispositionAttachment
      (stripSecurityHeaders (rewriteHeadersPass (normalizeDomain t.domain)
        resp.headers)) = true := by
    unfold dispositionAttachment
    rw [hstrip]
    simpa using hrwpre
  unfold modifyResponse
  simp only [hdisp, if_true]

/-- C6 witness: a concrete attachment response with an `.onion` body. -/
theorem claim_c6_download_short_circuit_witness :
    modifyResponse (torNew ((".example.tld").data) []) idCodecs
      (Response.mk
        [((("Content-Disposition").data),
          [("attachment; filename=a.onion.txt").data]),
         ((("Content-Type").data), [("text/html").data])]
        (("x.onion/").data)) =
      .ok (Response.mk
        [((("Content-Disposition").data),
          [("attachment; filename=a.example.tld.txt").data]),
         ((("Content-Type").data), [("text/html").data])]
        (("x.onion/").data)) := by
  have h := claim_c6_download_short_circuit
    (torNew ((".example.tld").data) []) idCodecs
    (Response.mk
      [((("Content-Disposition").data),
        [("attachment; filename=a.onion.txt").data]),
       ((("Content-Type").data), [("text/html").data])]
      (("x.onion/").data))
    (("attachment; filename=a.onion.txt").data) [] (by decide) (by decide)
    (by decide) (by decide)
  refine h.trans (congrArg Except.ok ?_)
  decide

/-! ## Claim C5: the content-type allow-list -/

/-- C5 counterexample: the allow-list membership test is
`strings.EqualFold`, so `TEXT/HTML` — which differs from the listed
`text/html` only in case and is not a list member — is accepted and the
body IS rewritten, refuting the claimed case-sensitive comparison. -/
theorem claim_c5_counterexample :
    sliceContains contentTypesForReplace (("TEXT/HTML").data) = true ∧
    (("TEXT/HTML").data) ∉ contentTypesForReplace ∧
    modifyResponse (torNew ((".example.tld").data) []) idCodecs
      (Response.mk [((("Content-Type").data), [("TEXT/HTML").data])]
        (("x.onion/").data)) =
      .ok (Response.mk
        [((("Content-Type").data), [("TEXT/HTML").data]),
         ((("Content-Length").data), [("14").data])]
        (("x.example.tld/").data)) ∧
    (("x.example.tld/").data) ≠ (("x.onion/").data) := by
  refine ⟨by decide, by decide, ?_, by decide⟩
  rfl

/-- C5 (amended): the MIME type (text before the first `;` of the first
`Content-Type` value) is compared against the allow-list
case-insensitively (`strings.EqualFold`); when it is not a member under
that comparison the body is left unchanged, and a MIME type differing
from a listed one only in letter case IS a member and does not skip the
body rewrite. -/
theorem claim_c5_content_type_gate (t : TorCfg) (codecs : Codecs)
    (resp : Response) (ct : Str) (rest : List Str)
    (hct : headerFind (stripSecurityHeaders
      (rewriteHeadersPass (normalizeDomain t.domain) resp.headers))
      (("Content-Type").data) = some (ct :: rest))
    (hmime : sliceContains contentTypesForReplace (takeUntilChar ';' ct) =
      false) :
    modifyResponse t codecs resp =
      .ok (Response.mk
        (stripSecurityHeaders (rewriteHeadersPass (normalizeDomain t.domain)
          resp.headers))
        resp.body) ∧
    sliceContains contentTypesForReplace (("TEXT/HTML").data) = true := by
  refine ⟨?_, by decide⟩
  unfold modifyResponse
  simp only []
  by_cases hdisp : dispositionAttachment
      (stripSecurityHeaders (rewriteHeadersPass (normalizeDomain t.domain)
        resp.headers)) = true
  · rw [if_pos hdisp]
  · rw [if_neg hdisp, hct]
    have hskip : skipForContentType (ct :: rest) = true := by
      show (!sliceContains contentTypesForReplace (takeUntilChar ';' ct)) = true
      rw [hmime]
      rfl
    simp only [hskip, if_true]

/-- C5 witness: a concrete binary content type skips the body rewrite. -/
theorem claim_c5_content_type_gate_witness :
    modifyResponse (torNew ((".example.tld").data) []) idCodecs
      (Response.mk
        [((("Content-Type").data), [("application/octet-stream").data])]
        (("x.onion/").data)) =
      .ok (Response.mk
        [((("Content-Type").data), [("application/octet-stream").data])]
        (("x.onion/").data)) := by
  have h := (claim_c5_content_type_gate
    (torNew ((".example.tld").data) []) idCodecs
    (Response.mk
      [((("Content-Type").data), [("application/octet-stream").data])]
      (("x.onion/").data))
    (("application/octet-stream").data) [] (by decide) (by decide)).1
  refine h.trans (congrArg Except.ok ?_)
  decide

/-! ## Claim C2: the blacklist veto -/

/-- C2: when the (possibly decompressed and) rewritten body matches the
case-insensitive word-boundary pattern of some blacklist word, the
transform returns an error naming a matched word and never installs a
body: no `.ok` response is produced. -/
theorem claim_c2_blacklist_veto (t : TorCfg) (codecs : Codecs)
    (resp : Response) (ctvs : List Str) (plain : Str) (tag : EncTag)
    (hdisp : dispositionAttachment (stripSecurityHeaders
      (rewriteHeadersPass (normalizeDomain t.domain) resp.headers)) = false)
    (hct : headerFind (stripSecurityHeaders
      (rewriteHeadersPass (normalizeDomain t.domain) resp.headers))
      (("Content-Type").data) = some ctvs)
    (hskip : skipForContentType ctvs = false)
    (hdec : decodeBody codecs
      (headerGetFirst (stripSecurityHeaders
        (rewriteHeadersPass (normalizeDomain t.domain) resp.headers))
        (("Content-Encoding").data))
      resp.body = .ok (plain, tag))
    (hex : ∃ u ∈ t.blacklist,
      wordBoundaryMatch u (bodyRewrite (normalizeDomain t.domain) plain) =
        true) :
    ∃ w ∈ t.blacklist,
      wordBoundaryMatch w (bodyRewrite (normalizeDomain t.domain) plain) =
        true ∧
      modifyResponse t codecs resp = .error (forbiddenMsg w) ∧
      ∀ r : Response, modifyResponse t codecs resp ≠ .ok r := by
  have hsome : (t.blacklist.find? (fun w =>
      wordBoundaryMatch w (bodyRewrite (normalizeDomain t.domain) plain))).isSome := by
    rw [List.find?_isSome]
    obtain ⟨u, hu, hmu⟩ := hex
    exact ⟨u, hu, hmu⟩
  cases hfind : t.blacklist.find? (fun w =>
      wordBoundaryMatch w (bodyRewrite (normalizeDomain t.domain) plain)) with
  | none => rw [hfind] at hsome; simp at hsome
  | some w =>
    have hmemw := List.mem_of_find?_eq_some hfind
    have hmatchw : wordBoundaryMatch w
        (bodyRewrite (normalizeDomain t.domain) plain) = true := by
      simpa using List.find?_some hfind
    have herr : modifyResponse t codecs resp = .error (forbiddenMsg w) := by
      unfold modifyResponse
      simp only [hdisp, Bool.false_eq_true, if_false, hct, hskip, hdec]
      have hhit : blacklistHit t.blacklist
          (bodyRewrite (normalizeDomain t.domain) plain) = some w := hfind
      simp only [hhit]
    refine ⟨w, hmemw, hmatchw, herr, ?_⟩
    intro r hcontra
    rw [herr] at hcontra
    exact Except.noConfusion hcontra

/-- C2 witness: a gzip response whose decompressed body contains a
blacklisted word (case-insensitively, on a word boundary) is vetoed. -/
theorem claim_c2_blacklist_veto_witness :
    modifyResponse (torNew ((".example.tld").data) (("bomb,gun").data))
      (Codecs.mk (fun _ => .ok (("the Bomb.onion/ page").data))
        (fun b => .ok b) (fun b => .ok b) (fun b => .ok b)
        (fun b => .ok b) (fun b => .ok b))
      (Response.mk
        [((("Content-Type").data), [("text/html; charset=utf-8").data]),
         ((("Content-Encoding").data), [("gzip").data])]
        (("zzz").data)) =
      .error (forbiddenMsg (("bomb").data)) ∧
    (∀ r : Response,
      modifyResponse (torNew ((".example.tld").data) (("bomb,gun").data))
        (Codecs.mk (fun _ => .ok (("the Bomb.onion/ page").data))
          (fun b => .ok b) (fun b => .ok b) (fun b => .ok b)
          (fun b => .ok b) (fun b => .ok b))
        (Response.mk
          [((("Content-Type").data), [("text/html; charset=utf-8").data]),
           ((("Content-Encoding").data), [("gzip").data])]
          (("zzz").data)) ≠ .ok r) := by
  have h := claim_c2_blacklist_veto
    (torNew ((".example.tld").data) (("bomb,gun").data))
    (Codecs.mk (fun _ => .ok (("the Bomb.onion/ page").data))
      (fun b => .ok b) (fun b => .ok b) (fun b => .ok b)
      (fun b => .ok b) (fun b => .ok b))
    (Response.mk
      [((("Content-Type").data), [("text/html; charset=utf-8").data]),
       ((("Content-Encoding").data), [("gzip").data])]
      (("zzz").data))
    [("text/html; charset=utf-8").data] (("the Bomb.onion/ page").data)
    EncTag.gz (by decide) rfl (by decide) rfl
    ⟨(("bomb").data), by decide, by decide⟩
  rcases h with ⟨w, _, _, _, hok⟩
  exact ⟨rfl, hok⟩

/-! ## Claim C10: the header rewrite keeps original onion-named entries -/

/-- C10: after the header rewrite pass, an entry whose name contains
`.onion` (and whose rewritten name is new and unambiguous) is present
twice: the original name still holds the original values, and the
rewritten name holds the rewritten values; an entry whose name does not
contain `.onion` keeps a single binding whose values are rewritten in
place. -/
theorem claim_c10_header_rewrite_keeps_original (d : Str) (hdrs : Headers)
    (k : Str) (v : List Str)
    (hnd : (hdrs.map Prod.fst).Nodup)
    (hmem : (k, v) ∈ hdrs)
    (hfresh : ∀ e ∈ hdrs, e.fst ≠ k → rewriteName d e.fst ≠ k) :
    (subOccurs onionStr k = true → rewriteName d k ≠ k →
      (∀ e ∈ hdrs, e.fst ≠ k → rewriteName d e.fst ≠ rewriteName d k) →
      headerFind (rewriteHeadersPass d hdrs) k = some v ∧
      headerFind (rewriteHeadersPass d hdrs) (rewriteName d k) =
        some (v.map (rewriteValue d))) ∧
    (subOccurs onionStr k = false →
      headerFind (rewriteHeadersPass d hdrs) k =
        some (v.map (rewriteValue d))) := by
  constructor
  · intro _ hne hfresh2
    constructor
    · have huntouched : ∀ e ∈ hdrs, rewriteName d e.fst ≠ k := by
        intro e he
        by_cases hek : e.fst = k
        · rw [hek]
          exact hne
        · exact hfresh e he hek
      rw [rewriteHeadersPass,
        rewriteAux_find_untouched d hdrs hdrs k huntouched]
      exact headerFind_of_mem_nodup hdrs k v hmem hnd
    · exact rewriteAux_find_target d hdrs hdrs k (rewriteName d k) v hnd
        hmem rfl hfresh2
  · intro hocc
    have hkk : rewriteName d k = k := replAll_no_occurrence k onionStr d hocc
    exact rewriteAux_find_target d hdrs hdrs k k v hnd hmem hkk hfresh

/-- C10 witness: a concrete header map with an onion-named entry and a
plain entry. -/
theorem claim_c10_header_rewrite_keeps_original_witness :
    headerFind (rewriteHeadersPass ((".example.tld").data)
      [((("X.onion-Id").data), [("a.onion/b").data]),
       ((("Server").data), [("nginx x.onion y").data])])
      (("X.onion-Id").data) = some [("a.onion/b").data] ∧
    headerFind (rewriteHeadersPass ((".example.tld").data)
      [((("X.onion-Id").data), [("a.onion/b").data]),
       ((("Server").data), [("nginx x.onion y").data])])
      (("X.example.tld-Id").data) = some [("a.example.tld/b").data] ∧
    headerFind (rewriteHeadersPass ((".example.tld").data)
      [((("X.onion-Id").data), [("a.onion/b").data]),
       ((("Server").data), [("nginx x.onion y").data])])
      (("Server").data) = some [("nginx x.example.tld y").data] := by
  have h1 := (claim_c10_header_rewrite_keeps_original ((".example.tld").data)
    [((("X.onion-Id").data), [("a.onion/b").data]),
     ((("Server").data), [("nginx x.onion y").data])]
    (("X.onion-Id").data) [("a.onion/b").data]
    (by decide) (by decide) (by decide)).1 (by decide) (by decide) (by decide)
  have h2 := (claim_c10_header_rewrite_keeps_original ((".example.tld").data)
    [((("X.onion-Id").data), [("a.onion/b").data]),
     ((("Server").data), [("nginx x.onion y").data])]
    (("Server").data) [("nginx x.onion y").data]
    (by decide) (by decide) (by decide)).2 (by decide)
  refine ⟨h1.1, ?_, h2.trans (by decide)⟩
  have hname : rewriteName ((".example.tld").data) (("X.onion-Id").data) =
      (("X.example.tld-Id").data) := by decide
  have := h1.2
  rw [hname] at this
  exact this.trans (by decide)

end Zwiebel
